import Mathlib

/-!
Verification of the transaction webhook ingestion / idempotency /
asynchronous-processing core.

The embedding models:
* `database.py` — the `Transaction` record and the keyed store;
* `main.py` / `receive_webhook` — the idempotency gate of the ingest path;
* `background_tasks.py` / `process_transaction` — the background state
  machine, with its `try`/`except` structure made explicit via `Except`
  and a fault-point parameter marking where an exception is raised
  during steps 3–5 of the run;
* `main.py` / `list_transactions` — the ordered scan.

Timestamps are modelled as natural numbers; the store is a list of
records keyed by `transaction_id`.  A SQLAlchemy commit is atomic, so a
run is modelled by the sequence of store states it commits.
-/

namespace Webhooks

/-- Transaction status.  The source stores it as a string; only the
values RECEIVED, PROCESSING, PROCESSED, FAILED occur (the column comment
in `database.py` lists the last three, the spec adds RECEIVED). -/
inductive TxStatus where
  | RECEIVED
  | PROCESSING
  | PROCESSED
  | FAILED
deriving DecidableEq, Repr

/-- The `Transaction` row of `database.py`. -/
structure Transaction where
  transaction_id : String
  source_account : String
  destination_account : String
  amount : Int
  currency : String
  status : TxStatus
  created_at : Nat
  processed_at : Option Nat
  webhook_received_at : Nat
  processing_started_at : Option Nat
  is_processing : Bool
  error_message : Option String
deriving DecidableEq, Repr

/-- The inbound notification payload.  Reconstructed from its use in
`main.py` (`webhook.transaction_id`, `webhook.source_account`,
`webhook.destination_account`, `webhook.amount`, `webhook.currency`)
and the interface table of the spec. -/
structure TransactionWebhook where
  transaction_id : String
  source_account : String
  destination_account : String
  amount : Int
  currency : String
deriving DecidableEq, Repr

/-- The Transaction Store: the rows of the `transactions` table. -/
abbrev Store := List Transaction

/-- `db.query(Transaction).filter(Transaction.transaction_id == tid).first()`. -/
def findTx (db : Store) (tid : String) : Option Transaction :=
  db.find? (fun t => t.transaction_id == tid)

/-- Number of stored records carrying a given identifier. -/
def countId (tid : String) (db : Store) : Nat :=
  (db.filter (fun t => t.transaction_id == tid)).length

/-- The acknowledgment body returned by the ingest endpoint. -/
structure Ack where
  message : String
  transaction_id : String
deriving DecidableEq, Repr

/-- Result of one ingest call: the store afterwards, the response body,
and whether a new record was created (only a created record triggers
background dispatch in `receive_webhook`). -/
structure IngestResult where
  store : Store
  ack : Ack
  created : Bool
deriving DecidableEq, Repr

/-- The record built by `receive_webhook` for a first-time identifier:
payload fields copied from the webhook, `status="PROCESSING"`,
`created_at` and `webhook_received_at` stamped now, the remaining
columns at their `database.py` defaults. -/
def newTransaction (w : TransactionWebhook) (now : Nat) : Transaction :=
  { transaction_id := w.transaction_id
    source_account := w.source_account
    destination_account := w.destination_account
    amount := w.amount
    currency := w.currency
    status := TxStatus.PROCESSING
    created_at := now
    processed_at := none
    webhook_received_at := now
    processing_started_at := none
    is_processing := false
    error_message := none }

/-- `receive_webhook` of `main.py`: the idempotency gate.  If the
identifier is present the store is untouched and the caller is
acknowledged; otherwise the new record is inserted and the background
run is dispatched (`created = true`). -/
def receive_webhook (w : TransactionWebhook) (now : Nat) (db : Store) : IngestResult :=
  match findTx db w.transaction_id with
  | some _ =>
      { store := db
        ack := { message := "Webhook acknowledged", transaction_id := w.transaction_id }
        created := false }
  | none =>
      { store := db ++ [newTransaction w now]
        ack := { message := "Webhook acknowledged", transaction_id := w.transaction_id }
        created := true }

/-- ORM-style update of the row with the given primary key (the first
match; keys are unique in the table). -/
def updateTx (db : Store) (tid : String) (f : Transaction → Transaction) : Store :=
  match db with
  | [] => []
  | t :: ts => if t.transaction_id == tid then f t :: ts else t :: updateTx ts tid f

/-- Step 3 of the run: `is_processing = True`, `processing_started_at = now`. -/
def markProcessing (t1 : Nat) (t : Transaction) : Transaction :=
  { t with is_processing := true, processing_started_at := some t1 }

/-- Step 5 of the run: `status = "PROCESSED"`, `processed_at = now`,
`is_processing = False`. -/
def markProcessed (t2 : Nat) (t : Transaction) : Transaction :=
  { t with status := TxStatus.PROCESSED, processed_at := some t2, is_processing := false }

/-- The `except` branch mutation: `status = "FAILED"`,
`error_message = str(e)`, `is_processing = False`. -/
def markFailed (msg : String) (t : Transaction) : Transaction :=
  { t with status := TxStatus.FAILED, error_message := some msg, is_processing := false }

/-- The guard of step 2: `transaction.status in ["PROCESSED", "FAILED"]`. -/
def terminal (s : TxStatus) : Bool :=
  s == TxStatus.PROCESSED || s == TxStatus.FAILED

/-- Where, if anywhere, a fault is raised during steps 3–5 of a run
(the spec's fault model).  `beforeMarkCommit`: the fault lands before
the step-3 commit takes effect (a commit is atomic, so a failing commit
leaves the store unchanged).  `afterMarkCommit`: the step-3 commit
landed and the fault is raised during the simulated external step or
the final commit. -/
inductive FaultPoint where
  | noFault
  | beforeMarkCommit
  | afterMarkCommit
deriving DecidableEq, Repr

/-- The `try` block of `process_transaction`: load, terminal guard,
mark-processing commit, simulated external step, success commit.  A
raised fault carries the description and the store as committed so
far. -/
def process_transaction_try (tid : String) (fp : FaultPoint) (msg : String)
    (t1 t2 : Nat) (db : Store) : Except (String × Store) Store :=
  match findTx db tid with
  | none => Except.ok db
  | some tx =>
    if terminal tx.status then Except.ok db
    else
      match fp with
      | FaultPoint.beforeMarkCommit => Except.error (msg, db)
      | FaultPoint.afterMarkCommit =>
          Except.error (msg, updateTx db tid (markProcessing t1))
      | FaultPoint.noFault =>
          Except.ok (updateTx (updateTx db tid (markProcessing t1)) tid (markProcessed t2))

/-- The `except` block of `process_transaction`: re-fetch the record
and, when it is still there, persist the FAILED terminal state. -/
def handle_failure (tid : String) (msg : String) (db : Store) : Store :=
  match findTx db tid with
  | none => db
  | some _ => updateTx db tid (markFailed msg)

/-- One full background run (`process_transaction` of
`background_tasks.py`): the `try` body with every fault caught and
converted by the `except` handler.  The function is total: no fault
escapes to a caller. -/
def process_transaction (tid : String) (fp : FaultPoint) (msg : String)
    (t1 t2 : Nat) (db : Store) : Store :=
  match process_transaction_try tid fp msg t1 t2 db with
  | Except.ok s => s
  | Except.error e => handle_failure tid e.1 e.2

/-- The store as persisted by the step-3 commit of a run, i.e. the
state observable while the simulated external step is in flight (or
forever, if the process is interrupted mid-run). -/
def mark_step (tid : String) (t1 : Nat) (db : Store) : Store :=
  match findTx db tid with
  | none => db
  | some tx => if terminal tx.status then db else updateTx db tid (markProcessing t1)

/-- `b.webhook_received_at <= a.webhook_received_at`: the comparison of
the descending scan. -/
def recvLe (a b : Transaction) : Bool :=
  b.webhook_received_at ≤ a.webhook_received_at

/-- `list_transactions` of `main.py`: all rows ordered by
`webhook_received_at` descending. -/
def list_transactions (db : Store) : List Transaction :=
  db.mergeSort recvLe

/-- A fold of ingest calls, threading the store. -/
def ingestN (calls : List (TransactionWebhook × Nat)) (db : Store) : Store :=
  calls.foldl (fun s c => (receive_webhook c.1 c.2 s).store) db

/-- The acknowledgments returned by a sequence of ingest calls, each
evaluated at the store it actually sees. -/
def ingestAcks : List (TransactionWebhook × Nat) → Store → List Ack
  | [], _ => []
  | c :: rest, db =>
      (receive_webhook c.1 c.2 db).ack :: ingestAcks rest (receive_webhook c.1 c.2 db).store

/-- Store states reachable from the empty table by ingest calls and
background runs (faulting or not), including the state persisted by a
run's step-3 commit while its external step is in flight. -/
inductive Reachable : Store → Prop where
  | init : Reachable []
  | ingest (w : TransactionWebhook) (now : Nat) {s : Store} :
      Reachable s → Reachable (receive_webhook w now s).store
  | run (tid : String) (fp : FaultPoint) (msg : String) (t1 t2 : Nat) {s : Store} :
      Reachable s → Reachable (process_transaction tid fp msg t1 t2 s)
  | runMark (tid : String) (t1 : Nat) {s : Store} :
      Reachable s → Reachable (mark_step tid t1 s)

/-- Per-record invariant maintained by every operation. -/
def TxInv (t : Transaction) : Prop :=
  t.status ≠ TxStatus.RECEIVED ∧
  (t.is_processing = true → t.status = TxStatus.PROCESSING) ∧
  (t.processed_at.isSome ↔ t.status = TxStatus.PROCESSED) ∧
  (t.error_message.isSome ↔ t.status = TxStatus.FAILED)

/-- Store-wide invariant. -/
def StoreInv (db : Store) : Prop := ∀ t ∈ db, TxInv t

end Webhooks

namespace Webhooks

theorem findTx_mem {db : Store} {tid : String} {tx : Transaction}
    (h : findTx db tid = some tx) : tx ∈ db := by
  simp only [findTx] at h
  exact List.mem_of_find?_eq_some h

theorem findTx_beq {db : Store} {tid : String} {tx : Transaction}
    (h : findTx db tid = some tx) : (tx.transaction_id == tid) = true := by
  simp only [findTx] at h
  exact @List.find?_some _ (fun t => t.transaction_id == tid) tx db h

theorem mem_updateTx {db : Store} {tid : String} (f : Transaction → Transaction)
    {tx : Transaction} (hfind : findTx db tid = some tx) :
    ∀ t ∈ updateTx db tid f, t ∈ db ∨ t = f tx := by
  induction db with
  | nil => simp [findTx] at hfind
  | cons a ts ih =>
    simp only [findTx] at hfind ih
    by_cases ha : (a.transaction_id == tid) = true
    · simp only [List.find?_cons, ha] at hfind
      obtain rfl := Option.some.inj hfind
      intro t ht
      simp only [updateTx, ha, if_true] at ht
      rcases List.mem_cons.mp ht with rfl | ht
      · exact Or.inr rfl
      · exact Or.inl (List.mem_cons_of_mem _ ht)
    · rw [Bool.not_eq_true] at ha
      simp only [List.find?_cons, ha] at hfind
      intro t ht
      simp only [updateTx, ha, Bool.false_eq_true, if_false] at ht
      rcases List.mem_cons.mp ht with rfl | ht
      · exact Or.inl (List.mem_cons_self t ts)
      · rcases ih hfind t ht with h | h
        · exact Or.inl (List.mem_cons_of_mem a h)
        · exact Or.inr h

theorem findTx_updateTx {db : Store} {tid : String} {f : Transaction → Transaction}
    {tx : Transaction} (hfind : findTx db tid = some tx)
    (hf : (f tx).transaction_id = tx.transaction_id) :
    findTx (updateTx db tid f) tid = some (f tx) := by
  induction db with
  | nil => simp [findTx] at hfind
  | cons a ts ih =>
    simp only [findTx] at hfind ih ⊢
    by_cases ha : (a.transaction_id == tid) = true
    · simp only [List.find?_cons, ha] at hfind
      obtain rfl := Option.some.inj hfind
      have hfa : ((f a).transaction_id == tid) = true := by
        have hid : a.transaction_id = tid := by
          simpa using ha
        simp [hf, hid]
      simp only [updateTx, ha, if_true, List.find?_cons, hfa]
    · rw [Bool.not_eq_true] at ha
      simp only [List.find?_cons, ha] at hfind
      simp only [updateTx, ha, Bool.false_eq_true, if_false, List.find?_cons]
      exact ih hfind

theorem countId_eq_zero_iff {tid : String} {db : Store} :
    countId tid db = 0 ↔ findTx db tid = none := by
  simp [countId, findTx, List.length_eq_zero, List.filter_eq_nil_iff,
    List.find?_eq_none]

theorem countId_append_single (tid : String) (db : Store) (t : Transaction) :
    countId tid (db ++ [t]) =
      countId tid db + (if t.transaction_id == tid then 1 else 0) := by
  by_cases h : (t.transaction_id == tid) = true <;>
    simp [countId, List.filter_append, h]

/-- C8: `list_transactions` returns all stored records (a permutation of
the table) ordered by `webhook_received_at` descending. -/
theorem list_transactions_ordered (db : Store) :
    (list_transactions db).Perm db ∧
    List.Pairwise (fun a b => b.webhook_received_at ≤ a.webhook_received_at)
      (list_transactions db) := by
  constructor
  · exact List.mergeSort_perm db recvLe
  · have htrans : ∀ (a b c : Transaction),
        recvLe a b = true → recvLe b c = true → recvLe a c = true := by
      intro a b c h1 h2
      simp only [recvLe, decide_eq_true_eq] at h1 h2 ⊢
      omega
    have htotal : ∀ (a b : Transaction), (recvLe a b || recvLe b a) = true := by
      intro a b
      simp only [recvLe, Bool.or_eq_true, decide_eq_true_eq]
      omega
    have h := List.sorted_mergeSort htrans htotal db
    exact h.imp (fun hab => by simpa [recvLe] using hab)

/-- The concrete notification of the spec's test scenario. -/
def w0 : TransactionWebhook :=
  { transaction_id := "t1", source_account := "a", destination_account := "b",
    amount := 100, currency := "USD" }

/-- C2 counterexample: ingesting a fresh identifier into the empty store
persists the new record with status PROCESSING, not RECEIVED —
`receive_webhook` in `main.py` sets `status="PROCESSING"` at creation. -/
theorem first_ingest_status_not_received :
    ((receive_webhook w0 0 []).store.map Transaction.status
      = [TxStatus.PROCESSING]) ∧
    TxStatus.PROCESSING ≠ TxStatus.RECEIVED := by
  exact ⟨rfl, by decide⟩

/-- C2 (amended): on an absent identifier the gate persists a new record
whose status is PROCESSING and whose payload fields equal those of the
notification, and reports a creation (which is what dispatches the
background run). -/
theorem ingest_new_creates (w : TransactionWebhook) (now : Nat) (db : Store)
    (h : findTx db w.transaction_id = none) :
    (receive_webhook w now db).store = db ++ [newTransaction w now] ∧
    (newTransaction w now).status = TxStatus.PROCESSING ∧
    (newTransaction w now).source_account = w.source_account ∧
    (newTransaction w now).destination_account = w.destination_account ∧
    (newTransaction w now).amount = w.amount ∧
    (newTransaction w now).currency = w.currency ∧
    (newTransaction w now).transaction_id = w.transaction_id ∧
    (receive_webhook w now db).created = true := by
  refine ⟨?_, rfl, rfl, rfl, rfl, rfl, rfl, ?_⟩ <;>
    simp [receive_webhook, h]

theorem ingest_new_creates_witness :
    findTx [] w0.transaction_id = none ∧
    ((receive_webhook w0 5 []).store = [] ++ [newTransaction w0 5] ∧
     (newTransaction w0 5).status = TxStatus.PROCESSING ∧
     (newTransaction w0 5).source_account = w0.source_account ∧
     (newTransaction w0 5).destination_account = w0.destination_account ∧
     (newTransaction w0 5).amount = w0.amount ∧
     (newTransaction w0 5).currency = w0.currency ∧
     (newTransaction w0 5).transaction_id = w0.transaction_id ∧
     (receive_webhook w0 5 []).created = true) :=
  ⟨rfl, ingest_new_creates w0 5 [] rfl⟩

/-- C3: a background run on a record already in a terminal status
(PROCESSED or FAILED) leaves the whole store unchanged, whatever fault
behaviour the run would have had. -/
theorem terminal_absorbing (tid : String) (fp : FaultPoint) (msg : String)
    (t1 t2 : Nat) (db : Store) (tx : Transaction)
    (hfind : findTx db tid = some tx)
    (hterm : tx.status = TxStatus.PROCESSED ∨ tx.status = TxStatus.FAILED) :
    process_transaction tid fp msg t1 t2 db = db := by
  have ht : terminal tx.status = true := by
    rcases hterm with h | h <;> simp [terminal, h]
  simp [process_transaction, process_transaction_try, hfind, ht]

/-- A concrete record already in the PROCESSED terminal state. -/
def txProcessedExample : Transaction :=
  { newTransaction w0 0 with status := TxStatus.PROCESSED, processed_at := some 30 }

theorem terminal_absorbing_witness :
    findTx [txProcessedExample] "t1" = some txProcessedExample ∧
    (txProcessedExample.status = TxStatus.PROCESSED ∨
      txProcessedExample.status = TxStatus.FAILED) ∧
    process_transaction "t1" FaultPoint.afterMarkCommit "boom" 1 2
      [txProcessedExample] = [txProcessedExample] :=
  ⟨rfl, Or.inl rfl,
    terminal_absorbing "t1" FaultPoint.afterMarkCommit "boom" 1 2
      [txProcessedExample] txProcessedExample rfl (Or.inl rfl)⟩

end Webhooks

namespace Webhooks

theorem receive_webhook_ack (w : TransactionWebhook) (now : Nat) (db : Store) :
    (receive_webhook w now db).ack =
      { message := "Webhook acknowledged", transaction_id := w.transaction_id } := by
  unfold receive_webhook
  cases findTx db w.transaction_id <;> rfl

theorem receive_webhook_existing {db : Store} {tid : String}
    (w : TransactionWebhook) (now : Nat) (hw : w.transaction_id = tid)
    (h : findTx db tid ≠ none) :
    (receive_webhook w now db).store = db := by
  subst hw
  cases hfd : findTx db w.transaction_id with
  | none => exact absurd hfd h
  | some tx => simp [receive_webhook, hfd]

theorem ingestN_noop {tid : String} (rest : List (TransactionWebhook × Nat))
    (db : Store) (hall : ∀ x ∈ rest, x.1.transaction_id = tid)
    (h : findTx db tid ≠ none) :
    ingestN rest db = db := by
  induction rest with
  | nil => rfl
  | cons c cs ih =>
    have hc := hall c (List.mem_cons_self c cs)
    have hstep : (receive_webhook c.1 c.2 db).store = db :=
      receive_webhook_existing c.1 c.2 hc h
    have hdef : ingestN (c :: cs) db =
        ingestN cs ((receive_webhook c.1 c.2 db).store) := rfl
    rw [hdef, hstep]
    exact ih (fun x hx => hall x (List.mem_cons_of_mem c hx))

theorem ingestAcks_const {tid : String} (calls : List (TransactionWebhook × Nat))
    (db : Store) (hall : ∀ x ∈ calls, x.1.transaction_id = tid) :
    ingestAcks calls db =
      List.replicate calls.length
        { message := "Webhook acknowledged", transaction_id := tid } := by
  induction calls generalizing db with
  | nil => rfl
  | cons c cs ih =>
    have hc := hall c (List.mem_cons_self c cs)
    have hdef : ingestAcks (c :: cs) db =
        (receive_webhook c.1 c.2 db).ack ::
          ingestAcks cs ((receive_webhook c.1 c.2 db).store) := rfl
    rw [List.length_cons, List.replicate_succ, hdef, receive_webhook_ack, hc,
      ih _ (fun x hx => hall x (List.mem_cons_of_mem c hx))]

/-- C1: starting from a store with no record for the identifier, a
sequence of N ≥ 1 ingest calls all carrying that identifier leaves
exactly one record for it; every call after the first leaves the store
untouched (the whole sequence persists exactly what the first call
persisted), and every call — first included — returns the same
acknowledgment body. -/
theorem idempotent_ingest (tid : String) (db : Store)
    (c : TransactionWebhook × Nat) (rest : List (TransactionWebhook × Nat))
    (h0 : countId tid db = 0) (hc : c.1.transaction_id = tid)
    (hrest : ∀ x ∈ rest, x.1.transaction_id = tid) :
    countId tid (ingestN (c :: rest) db) = 1 ∧
    ingestN (c :: rest) db = (receive_webhook c.1 c.2 db).store ∧
    ingestAcks (c :: rest) db =
      List.replicate (c :: rest).length
        { message := "Webhook acknowledged", transaction_id := tid } := by
  have hnone : findTx db c.1.transaction_id = none := by
    rw [hc]
    exact countId_eq_zero_iff.mp h0
  have hstore : (receive_webhook c.1 c.2 db).store
      = db ++ [newTransaction c.1 c.2] := by
    simp [receive_webhook, hnone]
  have hcount1 : countId tid ((receive_webhook c.1 c.2 db).store) = 1 := by
    rw [hstore, countId_append_single, h0]
    simp [newTransaction, hc]
  have hne : findTx ((receive_webhook c.1 c.2 db).store) tid ≠ none := by
    intro hn
    rw [← countId_eq_zero_iff] at hn
    omega
  have hdef : ingestN (c :: rest) db =
      ingestN rest ((receive_webhook c.1 c.2 db).store) := rfl
  refine ⟨?_, ?_, ?_⟩
  · rw [hdef, ingestN_noop rest _ hrest hne]
    exact hcount1
  · rw [hdef, ingestN_noop rest _ hrest hne]
  · refine ingestAcks_const (c :: rest) db ?_
    intro x hx
    rcases List.mem_cons.mp hx with rfl | hx
    · exact hc
    · exact hrest x hx

theorem idempotent_ingest_witness :
    countId "t1" ([] : Store) = 0 ∧ w0.transaction_id = "t1" ∧
    (countId "t1" (ingestN [(w0, 0), (w0, 1), (w0, 2)] []) = 1 ∧
     ingestN [(w0, 0), (w0, 1), (w0, 2)] [] = (receive_webhook w0 0 []).store ∧
     ingestAcks [(w0, 0), (w0, 1), (w0, 2)] [] =
       List.replicate
         ([(w0, 0), (w0, 1), (w0, 2)] : List (TransactionWebhook × Nat)).length
         { message := "Webhook acknowledged", transaction_id := "t1" }) :=
  ⟨rfl, rfl,
    idempotent_ingest "t1" [] (w0, 0) [(w0, 1), (w0, 2)] rfl rfl (by decide)⟩

/-- C4: a faultless run on an existing non-terminal record persists it
with status PROCESSED, a non-null `processed_at`, and
`is_processing = false`. -/
theorem run_success (tid : String) (msg : String) (t1 t2 : Nat) (db : Store)
    (tx : Transaction) (hfind : findTx db tid = some tx)
    (hnt : terminal tx.status = false) :
    findTx (process_transaction tid FaultPoint.noFault msg t1 t2 db) tid =
      some (markProcessed t2 (markProcessing t1 tx)) ∧
    (markProcessed t2 (markProcessing t1 tx)).status = TxStatus.PROCESSED ∧
    (markProcessed t2 (markProcessing t1 tx)).processed_at = some t2 ∧
    (markProcessed t2 (markProcessing t1 tx)).is_processing = false := by
  have h1 : findTx (updateTx db tid (markProcessing t1)) tid
      = some (markProcessing t1 tx) := findTx_updateTx hfind rfl
  have h2 : findTx (updateTx (updateTx db tid (markProcessing t1)) tid
        (markProcessed t2)) tid
      = some (markProcessed t2 (markProcessing t1 tx)) := findTx_updateTx h1 rfl
  have hpt : process_transaction tid FaultPoint.noFault msg t1 t2 db =
      updateTx (updateTx db tid (markProcessing t1)) tid (markProcessed t2) := by
    simp [process_transaction, process_transaction_try, hfind, hnt]
  rw [hpt]
  exact ⟨h2, rfl, rfl, rfl⟩

theorem run_success_witness :
    findTx [newTransaction w0 0] "t1" = some (newTransaction w0 0) ∧
    terminal (newTransaction w0 0).status = false ∧
    (findTx (process_transaction "t1" FaultPoint.noFault "" 1 31
        [newTransaction w0 0]) "t1" =
      some (markProcessed 31 (markProcessing 1 (newTransaction w0 0))) ∧
     (markProcessed 31 (markProcessing 1 (newTransaction w0 0))).status
        = TxStatus.PROCESSED ∧
     (markProcessed 31 (markProcessing 1 (newTransaction w0 0))).processed_at
        = some 31 ∧
     (markProcessed 31 (markProcessing 1 (newTransaction w0 0))).is_processing
        = false) :=
  ⟨rfl, rfl, run_success "t1" "" 1 31 [newTransaction w0 0]
    (newTransaction w0 0) rfl rfl⟩

/-- C5: a run on an existing non-terminal record that faults during
steps 3–5 persists the record with status FAILED, `error_message` equal
to the fault description, and `is_processing = false`; the fault is
absorbed by the handler (`process_transaction` is a total function into
stores, so nothing is re-raised to a caller). -/
theorem run_fault_failed (tid : String) (fp : FaultPoint) (msg : String)
    (t1 t2 : Nat) (db : Store) (tx : Transaction)
    (hfind : findTx db tid = some tx) (hnt : terminal tx.status = false)
    (hfp : fp ≠ FaultPoint.noFault) :
    ∃ tx', findTx (process_transaction tid fp msg t1 t2 db) tid = some tx' ∧
      tx'.status = TxStatus.FAILED ∧ tx'.error_message = some msg ∧
      tx'.is_processing = false := by
  cases fp with
  | noFault => exact absurd rfl hfp
  | beforeMarkCommit =>
    refine ⟨markFailed msg tx, ?_, rfl, rfl, rfl⟩
    have hpt : process_transaction tid FaultPoint.beforeMarkCommit msg t1 t2 db =
        handle_failure tid msg db := by
      simp [process_transaction, process_transaction_try, hfind, hnt]
    have hh : handle_failure tid msg db = updateTx db tid (markFailed msg) := by
      simp [handle_failure, hfind]
    rw [hpt, hh]
    exact findTx_updateTx hfind rfl
  | afterMarkCommit =>
    refine ⟨markFailed msg (markProcessing t1 tx), ?_, rfl, rfl, rfl⟩
    have h1 : findTx (updateTx db tid (markProcessing t1)) tid
        = some (markProcessing t1 tx) := findTx_updateTx hfind rfl
    have hpt : process_transaction tid FaultPoint.afterMarkCommit msg t1 t2 db =
        handle_failure tid msg (updateTx db tid (markProcessing t1)) := by
      simp [process_transaction, process_transaction_try, hfind, hnt]
    have hh : handle_failure tid msg (updateTx db tid (markProcessing t1)) =
        updateTx (updateTx db tid (markProcessing t1)) tid (markFailed msg) := by
      simp [handle_failure, h1]
    rw [hpt, hh]
    exact findTx_updateTx h1 rfl

theorem run_fault_failed_witness :
    findTx [newTransaction w0 0] "t1" = some (newTransaction w0 0) ∧
    terminal (newTransaction w0 0).status = false ∧
    FaultPoint.afterMarkCommit ≠ FaultPoint.noFault ∧
    (∃ tx', findTx (process_transaction "t1" FaultPoint.afterMarkCommit
        "store unavailable" 1 31 [newTransaction w0 0]) "t1" = some tx' ∧
      tx'.status = TxStatus.FAILED ∧
      tx'.error_message = some "store unavailable" ∧
      tx'.is_processing = false) :=
  ⟨rfl, rfl, by decide,
    run_fault_failed "t1" FaultPoint.afterMarkCommit "store unavailable" 1 31
      [newTransaction w0 0] (newTransaction w0 0) rfl rfl (by decide)⟩

end Webhooks

namespace Webhooks

theorem txInv_newTransaction (w : TransactionWebhook) (now : Nat) :
    TxInv (newTransaction w now) := by
  refine ⟨?_, ?_, ?_, ?_⟩ <;> simp [newTransaction]

theorem status_processing_of_not_terminal {t : Transaction} (hInv : TxInv t)
    (hnt : terminal t.status = false) : t.status = TxStatus.PROCESSING := by
  rcases hInv with ⟨h1, _, _, _⟩
  cases h : t.status with
  | RECEIVED => exact absurd h h1
  | PROCESSING => rfl
  | PROCESSED => rw [h] at hnt; simp [terminal] at hnt
  | FAILED => rw [h] at hnt; simp [terminal] at hnt

theorem txInv_markProcessing {t : Transaction} (hInv : TxInv t)
    (hs : t.status = TxStatus.PROCESSING) (t1 : Nat) :
    TxInv (markProcessing t1 t) := by
  rcases hInv with ⟨_, _, h3, h4⟩
  refine ⟨?_, ?_, ?_, ?_⟩ <;> simp [markProcessing, hs] <;>
    simp [markProcessing, hs] at h3 h4 <;> assumption

theorem txInv_markProcessed {t : Transaction} (hInv : TxInv t)
    (hs : t.status = TxStatus.PROCESSING) (t2 : Nat) :
    TxInv (markProcessed t2 t) := by
  rcases hInv with ⟨_, _, _, h4⟩
  have herr : t.error_message = none := by
    rw [← Option.not_isSome_iff_eq_none]
    intro hsome
    rw [h4.mp hsome] at hs
    exact absurd hs (by simp)
  refine ⟨?_, ?_, ?_, ?_⟩ <;> simp [markProcessed, herr]

theorem txInv_markFailed {t : Transaction} (hInv : TxInv t)
    (hs : t.status = TxStatus.PROCESSING) (msg : String) :
    TxInv (markFailed msg t) := by
  rcases hInv with ⟨_, _, h3, _⟩
  have hpr : t.processed_at = none := by
    rw [← Option.not_isSome_iff_eq_none]
    intro hsome
    rw [h3.mp hsome] at hs
    exact absurd hs (by simp)
  refine ⟨?_, ?_, ?_, ?_⟩ <;> simp [markFailed, hpr]

theorem storeInv_ingest {db : Store} (hInv : StoreInv db)
    (w : TransactionWebhook) (now : Nat) :
    StoreInv (receive_webhook w now db).store := by
  cases h : findTx db w.transaction_id with
  | some tx =>
    intro t ht
    simp only [receive_webhook, h] at ht
    exact hInv t ht
  | none =>
    intro t ht
    simp only [receive_webhook, h] at ht
    rcases List.mem_append.mp ht with ht | ht
    · exact hInv t ht
    · obtain rfl := List.mem_singleton.mp ht
      exact txInv_newTransaction w now

theorem storeInv_mark_step {db : Store} (hInv : StoreInv db)
    (tid : String) (t1 : Nat) :
    StoreInv (mark_step tid t1 db) := by
  cases h : findTx db tid with
  | none => simpa [mark_step, h] using hInv
  | some tx =>
    by_cases hterm : terminal tx.status = true
    · simpa [mark_step, h, hterm] using hInv
    · have hnt : terminal tx.status = false := by
        rwa [Bool.not_eq_true] at hterm
      have htx := hInv tx (findTx_mem h)
      have hs : tx.status = TxStatus.PROCESSING :=
        status_processing_of_not_terminal htx hnt
      have hms : mark_step tid t1 db = updateTx db tid (markProcessing t1) := by
        simp [mark_step, h, hnt]
      rw [hms]
      intro t htm
      rcases mem_updateTx (markProcessing t1) h t htm with hm | rfl
      · exact hInv t hm
      · exact txInv_markProcessing htx hs t1

theorem storeInv_run {db : Store} (hInv : StoreInv db) (tid : String)
    (fp : FaultPoint) (msg : String) (t1 t2 : Nat) :
    StoreInv (process_transaction tid fp msg t1 t2 db) := by
  cases h : findTx db tid with
  | none => simpa [process_transaction, process_transaction_try, h] using hInv
  | some tx =>
    by_cases hterm : terminal tx.status = true
    · simpa [process_transaction, process_transaction_try, h, hterm] using hInv
    · have hnt : terminal tx.status = false := by
        rwa [Bool.not_eq_true] at hterm
      have htx := hInv tx (findTx_mem h)
      have hs : tx.status = TxStatus.PROCESSING :=
        status_processing_of_not_terminal htx hnt
      have h1 : findTx (updateTx db tid (markProcessing t1)) tid
          = some (markProcessing t1 tx) := findTx_updateTx h rfl
      have hInv1 : StoreInv (updateTx db tid (markProcessing t1)) := by
        intro t htm
        rcases mem_updateTx (markProcessing t1) h t htm with hm | rfl
        · exact hInv t hm
        · exact txInv_markProcessing htx hs t1
      cases fp with
      | noFault =>
        have hpt : process_transaction tid FaultPoint.noFault msg t1 t2 db =
            updateTx (updateTx db tid (markProcessing t1)) tid
              (markProcessed t2) := by
          simp [process_transaction, process_transaction_try, h, hnt]
        rw [hpt]
        intro t htm
        rcases mem_updateTx (markProcessed t2) h1 t htm with hm | rfl
        · exact hInv1 t hm
        · exact txInv_markProcessed (txInv_markProcessing htx hs t1) hs t2
      | beforeMarkCommit =>
        have hpt : process_transaction tid FaultPoint.beforeMarkCommit
            msg t1 t2 db = updateTx db tid (markFailed msg) := by
          simp [process_transaction, process_transaction_try, handle_failure,
            h, hnt]
        rw [hpt]
        intro t htm
        rcases mem_updateTx (markFailed msg) h t htm with hm | rfl
        · exact hInv t hm
        · exact txInv_markFailed htx hs msg
      | afterMarkCommit =>
        have hpt : process_transaction tid FaultPoint.afterMarkCommit
            msg t1 t2 db = updateTx (updateTx db tid (markProcessing t1)) tid
              (markFailed msg) := by
          simp [process_transaction, process_transaction_try, handle_failure,
            h, hnt, h1]
        rw [hpt]
        intro t htm
        rcases mem_updateTx (markFailed msg) h1 t htm with hm | rfl
        · exact hInv1 t hm
        · exact txInv_markFailed (txInv_markProcessing htx hs t1) hs msg

theorem storeInv_of_reachable {s : Store} (h : Reachable s) : StoreInv s := by
  induction h with
  | init => intro t ht; simp at ht
  | ingest w now _ ih => exact storeInv_ingest ih w now
  | run tid fp msg t1 t2 _ ih => exact storeInv_run ih tid fp msg t1 t2
  | runMark tid t1 _ ih => exact storeInv_mark_step ih tid t1

end Webhooks

namespace Webhooks

/-- C6: in every store state reachable by ingest calls and background
runs (faulting or not, including mid-run committed states), every
record has `processed_at` set exactly when its status is PROCESSED and
`error_message` set exactly when its status is FAILED. -/
theorem reachable_timestamps_iff (s : Store) (h : Reachable s) :
    ∀ t ∈ s, (t.processed_at.isSome ↔ t.status = TxStatus.PROCESSED) ∧
      (t.error_message.isSome ↔ t.status = TxStatus.FAILED) := by
  intro t ht
  rcases storeInv_of_reachable h t ht with ⟨_, _, h3, h4⟩
  exact ⟨h3, h4⟩

theorem reachable_timestamps_iff_witness :
    ((newTransaction w0 0).processed_at.isSome ↔
      (newTransaction w0 0).status = TxStatus.PROCESSED) ∧
    ((newTransaction w0 0).error_message.isSome ↔
      (newTransaction w0 0).status = TxStatus.FAILED) :=
  reachable_timestamps_iff (receive_webhook w0 0 []).store
    (Reachable.ingest w0 0 Reachable.init) (newTransaction w0 0) (by decide)

/-- C7: in every reachable store state, a record with
`is_processing = true` has status PROCESSING. -/
theorem reachable_is_processing_status (s : Store) (h : Reachable s) :
    ∀ t ∈ s, t.is_processing = true → t.status = TxStatus.PROCESSING := by
  intro t ht
  exact (storeInv_of_reachable h t ht).2.1

theorem reachable_is_processing_status_witness :
    (markProcessing 7 (newTransaction w0 0)).status = TxStatus.PROCESSING :=
  reachable_is_processing_status
    (mark_step "t1" 7 (receive_webhook w0 0 []).store)
    (Reachable.runMark "t1" 7 (Reachable.ingest w0 0 Reachable.init))
    (markProcessing 7 (newTransaction w0 0)) (by decide) (by decide)

/-- C10: in every reachable store state, every record's status is one
of PROCESSING, PROCESSED, FAILED — the RECEIVED value is never
persisted (`receive_webhook` creates records directly as PROCESSING). -/
theorem reachable_never_received (s : Store) (h : Reachable s) :
    ∀ t ∈ s, t.status = TxStatus.PROCESSING ∨ t.status = TxStatus.PROCESSED ∨
      t.status = TxStatus.FAILED := by
  intro t ht
  have h1 := (storeInv_of_reachable h t ht).1
  cases hst : t.status with
  | RECEIVED => exact absurd hst h1
  | PROCESSING => exact Or.inl rfl
  | PROCESSED => exact Or.inr (Or.inl rfl)
  | FAILED => exact Or.inr (Or.inr rfl)

theorem reachable_never_received_witness :
    (newTransaction w0 0).status = TxStatus.PROCESSING ∨
    (newTransaction w0 0).status = TxStatus.PROCESSED ∨
    (newTransaction w0 0).status = TxStatus.FAILED :=
  reachable_never_received (receive_webhook w0 0 []).store
    (Reachable.ingest w0 0 Reachable.init) (newTransaction w0 0) (by decide)

end Webhooks
